import Mathlib

/-!
Verification development for the communication-risk-guard repository.

The Python sources are shallowly embedded: strings are lists of characters,
Python dicts are association lists, JSON values are an inductive type, the
LLM completion endpoint and `json.loads` are abstracted as function
parameters, and the four agent stages are abstracted as a behaviour
function from stage, message and optional context to the JSON value the
stage returns (which is exactly the set of values `_parse_json_response`
can produce).  An aborted run (an uncaught Python exception such as the
TypeError from comparing a string with an int) is modelled as `none`.
-/

abbrev Chars := List Char

/-- Whitespace stripped by Python's `str.strip()` (ASCII fragment: space,
tab, newline, carriage return, vertical tab, form feed). -/
def isPyWs (c : Char) : Bool :=
  (c == ' ') || (c == '\t') || (c == '\n') || (c == '\r') ||
  (c == Char.ofNat 11) || (c == Char.ofNat 12)

/-- Model of Python `str.strip()` (restricted to the ASCII whitespace set). -/
def pyStrip (l : Chars) : Chars :=
  ((l.dropWhile isPyWs).reverse.dropWhile isPyWs).reverse

/-- Boolean sequence-prefix test: `isPrefixL pat l` holds when `pat` is an
initial segment of `l`. -/
def isPrefixL : Chars → Chars → Bool
  | [], _ => true
  | _ :: _, [] => false
  | a :: as, b :: bs => (a == b) && isPrefixL as bs

/-- Model of Python's substring test `sep in l`. -/
def containsSub (l sep : Chars) : Bool :=
  match l with
  | [] => isPrefixL sep []
  | _ :: rest => isPrefixL sep l || containsSub rest sep

/-- Fuelled worker for `splitOnL`; the fuel is only there to make the
recursion structural, `splitOnL` always supplies enough. -/
def splitGo (sep : Chars) : Nat → Chars → List Chars
  | _, [] => [[]]
  | 0, l => [l]
  | fuel + 1, c :: rest =>
    if isPrefixL sep (c :: rest) then
      [] :: splitGo sep fuel (rest.drop (sep.length - 1))
    else
      match splitGo sep fuel rest with
      | [] => [[c]]
      | h :: t => (c :: h) :: t

/-- Model of Python `str.split(sep)` for a non-empty separator: splits at
every non-overlapping occurrence of `sep`, scanning left to right, and
keeps empty chunks. -/
def splitOnL (sep l : Chars) : List Chars :=
  splitGo sep l.length l

/-- The backtick character (written via its code point). -/
def bt : Char := Char.ofNat 96

/-- The plain markdown fence delimiter, three backticks. -/
def fence : Chars := [bt, bt, bt]

/-- The four letters that follow the backticks in a JSON-labelled fence. -/
def jsonTail : Chars := ['j', 's', 'o', 'n']

/-- The JSON-labelled markdown fence opener. -/
def fenceJson : Chars := fence ++ jsonTail

/-- JSON values, as produced by `json.loads` (numbers restricted to the
integers; the repository's prompts only ever specify integer fields). -/
inductive JVal where
  | jnull
  | jbool (b : Bool)
  | jnum (n : Int)
  | jstr (s : Chars)
  | jarr (elems : List JVal)
  | jobj (fields : List (Chars × JVal))

/-- A Python dict keyed by strings, as an association list in insertion
order (keys are unique everywhere the code builds one). -/
abbrev Dict := List (Chars × JVal)

/-- Association-list lookup, the model of Python dict indexing. -/
def dictLookup : Dict → Chars → Option JVal
  | [], _ => none
  | (k, v) :: rest, key => if k = key then some v else dictLookup rest key

def errK : Chars := "error".toList
def rawK : Chars := "raw".toList

/-- The error text of the parse-failure dict.  The Python code interpolates
the `json.JSONDecodeError` detail into the message; that free-text detail
is abstracted to the fixed prefix, since nothing in the code ever reads it. -/
def errMsgChars : Chars := "Failed to parse response".toList

/-- The fence-extraction step of `BaseAgent._parse_json_response`
(src/agents/base_agent.py lines 29-34): strip the response, then prefer the
chunk after the first "```json", else the chunk after the first "```", else
the whole text.  Python's `[1]` indexing cannot fail here because each
branch is guarded by the corresponding substring test, so the chunk list
has at least two elements; the model uses `getD` accordingly. -/
def pyExtractSegment (responseText : Chars) : Chars :=
  let text := pyStrip responseText
  if containsSub text fenceJson then
    (splitOnL fence ((splitOnL fenceJson text).getD 1 [])).getD 0 []
  else if containsSub text fence then
    (splitOnL fence ((splitOnL fence text).getD 1 [])).getD 0 []
  else
    text

/-- Model of `BaseAgent._parse_json_response` (src/agents/base_agent.py
lines 27-39), parameterised by the `json.loads` parser: parse the stripped
extracted segment; on failure return the error dict whose `raw` field holds
the unmodified original response text. -/
def pyParseJsonResponse (loads : Chars → Option JVal) (responseText : Chars) : JVal :=
  match loads (pyStrip (pyExtractSegment responseText)) with
  | some v => v
  | none => .jobj [(errK, .jstr errMsgChars), (rawK, .jstr responseText)]

/-- Whitespace skipped by Python's JSON parser between tokens. -/
def isJsonWs (c : Char) : Bool :=
  (c == ' ') || (c == '\t') || (c == '\n') || (c == '\r')

def skipJWs (l : Chars) : Chars := l.dropWhile isJsonWs

/-- String-literal body parser for the `json.loads` model: consumes up to
and including the closing quote.  Supported escapes are the simple ones
(quote, backslash, slash, n, t, r, b, f); `\u` escapes are outside the
modelled fragment.  Raw control characters are rejected as in strict-mode
`json.loads`. -/
def strBody : Nat → Chars → Option (Chars × Chars)
  | 0, _ => none
  | _ + 1, [] => none
  | f + 1, c :: r =>
    if c = '"' then some ([], r)
    else if c = '\\' then
      match r with
      | [] => none
      | e :: r2 =>
        let esc : Option Char :=
          if e = '"' then some '"' else if e = '\\' then some '\\'
          else if e = '/' then some '/' else if e = 'n' then some '\n'
          else if e = 't' then some '\t' else if e = 'r' then some '\r'
          else if e = 'b' then some (Char.ofNat 8)
          else if e = 'f' then some (Char.ofNat 12) else none
        match esc with
        | some ch => (strBody f r2).map fun p => (ch :: p.1, p.2)
        | none => none
    else if c.toNat < 32 then none
    else (strBody f r).map fun p => (c :: p.1, p.2)

def natOfDigits (ds : Chars) : Nat :=
  ds.foldl (fun acc c => acc * 10 + (c.toNat - 48)) 0

/-- Integer-literal parser for the `json.loads` model: an optional sign is
handled by the caller; leading zeros are rejected as in JSON; a following
fraction or exponent marker means the number lies outside the modelled
integer fragment. -/
def numBody (l : Chars) : Option (Nat × Chars) :=
  let ds := l.takeWhile Char.isDigit
  let rest := l.drop ds.length
  if ds = [] then none
  else if ds.headD 'x' = '0' ∧ ds.length ≠ 1 then none
  else
    match rest with
    | c :: _ => if c = '.' ∨ c = 'e' ∨ c = 'E' then none else some (natOfDigits ds, rest)
    | [] => some (natOfDigits ds, rest)

/-- Parsing modes of the single fuelled JSON parser: a value, the remaining
elements of an array, or the remaining members of an object. -/
inductive JMode where
  | value
  | arrTail (acc : List JVal)
  | objTail (acc : List (Chars × JVal))

/-- Recursive-descent worker of the `json.loads` model. -/
def jsonParse : Nat → JMode → Chars → Option (JVal × Chars)
  | 0, _, _ => none
  | f + 1, .value, l =>
    match l with
    | 'n' :: 'u' :: 'l' :: 'l' :: r => some (.jnull, r)
    | 't' :: 'r' :: 'u' :: 'e' :: r => some (.jbool true, r)
    | 'f' :: 'a' :: 'l' :: 's' :: 'e' :: r => some (.jbool false, r)
    | '"' :: r => (strBody f r).map fun p => (.jstr p.1, p.2)
    | '[' :: r =>
      match skipJWs r with
      | ']' :: r2 => some (.jarr [], r2)
      | r1 => jsonParse f (.arrTail []) r1
    | '{' :: r =>
      match skipJWs r with
      | '}' :: r2 => some (.jobj [], r2)
      | r1 => jsonParse f (.objTail []) r1
    | '-' :: r => (numBody r).map fun p => (.jnum (-(p.1 : Int)), p.2)
    | c :: r => if c.isDigit then (numBody (c :: r)).map fun p => (.jnum (p.1 : Int), p.2) else none
    | [] => none
  | f + 1, .arrTail acc, l =>
    match jsonParse f .value l with
    | none => none
    | some (v, r) =>
      match skipJWs r with
      | ',' :: r2 => jsonParse f (.arrTail (acc ++ [v])) (skipJWs r2)
      | ']' :: r2 => some (.jarr (acc ++ [v]), r2)
      | _ => none
  | f + 1, .objTail acc, l =>
    match l with
    | '"' :: r =>
      match strBody f r with
      | none => none
      | some (k, r1) =>
        match skipJWs r1 with
        | ':' :: r2 =>
          match jsonParse f .value (skipJWs r2) with
          | none => none
          | some (v, r3) =>
            match skipJWs r3 with
            | ',' :: r4 => jsonParse f (.objTail (acc ++ [(k, v)])) (skipJWs r4)
            | '}' :: r4 => some (.jobj (acc ++ [(k, v)]), r4)
            | _ => none
        | _ => none
    | _ => none

/-- Executable model of Python's `json.loads`, restricted to the fragment
the repository's data ever exercises: null, booleans, integer numerals,
strings with simple escapes, arrays and objects, with the standard JSON
whitespace rules and a trailing-garbage check.  Floats, `\u` escapes and
the nonstandard NaN and Infinity literals are outside the fragment (they
make this model return `none`).  The universal theorems below are stated
for an arbitrary `loads` function, so they do not depend on this model;
it is used to evaluate concrete witness inputs. -/
def miniLoads (l : Chars) : Option JVal :=
  match jsonParse (2 * l.length + 2) .value (skipJWs l) with
  | some (v, r) => if skipJWs r = [] then some v else none
  | none => none

/-- The four analysis stages. -/
inductive Stage where
  | intent
  | emotion
  | risk
  | rewrite
deriving DecidableEq

/-- One observable call to an agent's `analyze`: which stage was invoked,
with which message, and with which context dict (if any). -/
structure AgentCall where
  stage : Stage
  message : Chars
  context : Option Dict

/-- A behaviour assigns to every stage, message and optional context the
JSON value that stage's `analyze` returns.  This abstracts the agent's
template rendering, network call and `_parse_json_response`; the returned
value ranges over all of `JVal`, which is exactly the possible output set
of `_parse_json_response` (`json.loads` may yield any JSON value, and the
failure branch yields the error dict).  Network and auth faults, which the
source leaves unhandled, are outside the behaviour abstraction. -/
abbrev Behavior := Stage → Chars → Option Dict → JVal

def intentK : Chars := "intent".toList
def emotionK : Chars := "emotion".toList
def riskK : Chars := "risk".toList
def rewriteK : Chars := "rewrite".toList
def scoreK : Chars := "overall_risk_score".toList

/-- The context dict the orchestrator passes to the Risk agent
(src/app.py lines 50-53 and src/streamlit_app.py lines 59-62). -/
def riskContext (f : Behavior) (message : Chars) : Dict :=
  [(intentK, f .intent message none), (emotionK, f .emotion message none)]

/-- Model of Python `d.get(key, default)` applied to an arbitrary value:
on a dict it is a defaulting lookup; on any non-dict value the attribute
access raises (AttributeError), modelled as `none`. -/
def pyDictGet (v : JVal) (key : Chars) (dflt : JVal) : Option JVal :=
  match v with
  | .jobj kvs => some ((dictLookup kvs key).getD dflt)
  | _ => none

/-- Model of Python `v >= n` against an int: defined for ints and bools
(bools are ints in Python); on any other value the comparison raises
(TypeError), modelled as `none`. -/
def pyGeNum (v : JVal) (n : Int) : Option Bool :=
  match v with
  | .jnum m => some (decide (n ≤ m))
  | .jbool b => some (decide (n ≤ if b then (1 : Int) else 0))
  | _ => none

/-- The rewrite gate of the orchestrator (src/app.py lines 57-58 and
src/streamlit_app.py lines 65-66):
`risk_score = results["risk"].get("overall_risk_score", 0)` followed by
`risk_score >= 4`.  `some b` means the comparison evaluated to `b`; `none`
means the lookup or the comparison raised. -/
def gateOutcome (riskResult : JVal) : Option Bool :=
  match pyDictGet riskResult scoreK (.jnum 0) with
  | none => none
  | some v => pyGeNum v 4

/-- Model of `CommunicationGuard.analyze` (src/app.py lines 28-62): run
Intent, then Emotion, then Risk with the intent and emotion results as
context; then, when `include_rewrite` is set and the gate opens, Rewrite
with the accumulated results as context.  Returns the trace of agent calls
in issue order, paired with the Analysis Result dict (`none` when the gate
expression raised, aborting the run).  Console output is ignored. -/
def analyze (f : Behavior) (message : Chars) (include_rewrite : Bool) :
    List AgentCall × Option Dict :=
  let intentR := f .intent message none
  let emotionR := f .emotion message none
  let ctx : Dict := riskContext f message
  let riskR := f .risk message (some ctx)
  let base : Dict := [(intentK, intentR), (emotionK, emotionR), (riskK, riskR)]
  let calls : List AgentCall :=
    [⟨.intent, message, none⟩, ⟨.emotion, message, none⟩, ⟨.risk, message, some ctx⟩]
  if include_rewrite then
    match gateOutcome riskR with
    | none => (calls, none)
    | some true =>
      (calls ++ [⟨.rewrite, message, some base⟩],
       some (base ++ [(rewriteK, f .rewrite message (some base))]))
    | some false => (calls, some base)
  else (calls, some base)

/-- Model of `run_analysis` (src/streamlit_app.py lines 48-69): the same
pipeline as `CommunicationGuard.analyze` but with no rewrite-skipping
flag, so the gate is always evaluated. -/
def run_analysis (f : Behavior) (message : Chars) : List AgentCall × Option Dict :=
  let intentR := f .intent message none
  let emotionR := f .emotion message none
  let ctx : Dict := riskContext f message
  let riskR := f .risk message (some ctx)
  let base : Dict := [(intentK, intentR), (emotionK, emotionR), (riskK, riskR)]
  let calls : List AgentCall :=
    [⟨.intent, message, none⟩, ⟨.emotion, message, none⟩, ⟨.risk, message, some ctx⟩]
  match gateOutcome riskR with
  | none => (calls, none)
  | some true =>
    (calls ++ [⟨.rewrite, message, some base⟩],
     some (base ++ [(rewriteK, f .rewrite message (some base))]))
  | some false => (calls, some base)

def dashSep : Chars := "---".toList

/-- The file-mode message list (src/app.py line 278):
`[m.strip() for m in content.split("---") if m.strip()]`. -/
def fileMessages (content : Chars) : List Chars :=
  (splitOnL dashSep content).filterMap fun m =>
    let s := pyStrip m
    if s = [] then none else some s

/-- The file-mode loop body (src/app.py lines 280-290): analyze each
message in order; an aborted analysis terminates the whole process, so
no later message is analyzed.  Returns the completed Analysis Results in
order plus a flag recording whether the loop aborted. -/
def runMsgs (f : Behavior) (inc : Bool) : List Chars → List Dict × Bool
  | [] => ([], false)
  | m :: rest =>
    match (analyze f m inc).2 with
    | none => ([], true)
    | some d =>
      let p := runMsgs f inc rest
      (d :: p.1, p.2)

/-- File mode of `main` (src/app.py lines 273-290): the file content is
stripped, split on "---" into messages, and each message analyzed in
order. -/
def runFileCLI (f : Behavior) (inc : Bool) (raw : Chars) : List Dict × Bool :=
  runMsgs f inc (fileMessages (pyStrip raw))

/-- Model of the terminal renderer's `get_risk_color` (src/app.py
lines 65-72). -/
def get_risk_color_cli (score : Int) : String :=
  if score ≤ 3 then "green" else if score ≤ 6 then "yellow" else "red"

/-- Model of the web renderer's `get_risk_color` (src/streamlit_app.py
lines 39-45). -/
def get_risk_color_web (score : Int) : String :=
  if score ≤ 3 then "low" else if score ≤ 6 then "medium" else "high"

/-- Modelled from the spec: the fixed band-to-colour correspondence
low = green, medium = yellow, high = red under which the two renderers
are compared (any other band name falls back to white, matching
`get_severity_style`). -/
def spec_band_to_color (band : String) : String :=
  if band = "low" then "green"
  else if band = "medium" then "yellow"
  else if band = "high" then "red"
  else "white"

/-- The state a constructed `BaseAgent` carries (src/agents/base_agent.py
lines 12-15); the Groq client handle is opaque and unused by any claim,
so only the loaded template is modelled. -/
structure BaseAgentM where
  prompt_template : Chars

/-- Model of `BaseAgent._load_prompt` (src/agents/base_agent.py lines
17-25) over an abstract read-only filesystem mapping a prompt-file name to
its content: a missing file raises FileNotFoundError (`none`), otherwise
the file's text is returned.  Path resolution relative to the prompts
directory is folded into the filesystem map. -/
def load_prompt (fs : Chars → Option Chars) (prompt_file : Chars) : Option Chars :=
  match fs prompt_file with
  | none => none
  | some t => some t

/-- Model of `BaseAgent.__init__` (src/agents/base_agent.py lines 12-15):
construction loads the template once; a missing template file makes
construction itself fail. -/
def mkBaseAgent (fs : Chars → Option Chars) (prompt_file : Chars) : Option BaseAgentM :=
  match load_prompt fs prompt_file with
  | none => none
  | some t => some ⟨t⟩

/-- Fuelled worker for `replaceAllL`. -/
def replaceAllGo (pat rep : Chars) : Nat → Chars → Chars
  | _, [] => []
  | 0, l => l
  | f + 1, c :: rest =>
    if isPrefixL pat (c :: rest) then
      rep ++ replaceAllGo pat rep f (rest.drop (pat.length - 1))
    else c :: replaceAllGo pat rep f rest

/-- Replace every occurrence of a non-empty pattern, scanning left to
right. -/
def replaceAllL (l pat rep : Chars) : Chars :=
  replaceAllGo pat rep l.length l

/-- Model of the template rendering `self.prompt_template.format(...)`
used by the agents: substitute the message and context placeholders.
Python's format mini-language beyond plain named placeholders is not
exercised by the repository's templates. -/
def formatPrompt (template msg ctxStr : Chars) : Chars :=
  replaceAllL (replaceAllL template "{message}".toList msg) "{context}".toList ctxStr

/-- Model of one agent `analyze` call at the `BaseAgent` level (the shape
shared by the four subclasses): render the template, issue one completion
request (`llm`), parse the response.  The context-to-text summarisation
(Python `str()` interpolation or field extraction, which differs per
agent) is abstracted as `ctxStr`.  The agent state is returned so that
theorems can speak about mutation: the Python method bodies contain no
assignment to `self`, which the model reflects by threading the state
through unchanged. -/
def agentAnalyze (llm : Chars → Chars) (loads : Chars → Option JVal)
    (ctxStr : Option Dict → Chars) (a : BaseAgentM) (message : Chars)
    (context : Option Dict) : JVal × BaseAgentM :=
  (pyParseJsonResponse loads (llm (formatPrompt a.prompt_template message (ctxStr context))), a)

/-! ### String-manipulation lemmas -/

theorem pyStrip_eq_rdrop (l : Chars) :
    pyStrip l = List.rdropWhile isPyWs (List.dropWhile isPyWs l) := rfl

theorem dropWhile_pyStrip (l : Chars) :
    List.dropWhile isPyWs (pyStrip l) = pyStrip l := by
  rw [pyStrip_eq_rdrop]
  rcases h : List.rdropWhile isPyWs (List.dropWhile isPyWs l) with _ | ⟨c, t⟩
  · rfl
  · have hpre : List.rdropWhile isPyWs (List.dropWhile isPyWs l) <+:
        List.dropWhile isPyWs l := List.rdropWhile_prefix _ _
    rw [h] at hpre
    obtain ⟨rst, hr⟩ := hpre
    have hidem : List.dropWhile isPyWs ((c :: t) ++ rst) = (c :: t) ++ rst := by
      rw [hr]; exact List.dropWhile_idempotent _ _
    have hc : isPyWs c = false := by
      by_contra hcc
      rw [Bool.not_eq_false] at hcc
      rw [List.cons_append, List.dropWhile_cons, if_pos hcc] at hidem
      have hlen := congrArg List.length hidem
      have hle := (@List.dropWhile_suffix Char (t ++ rst) isPyWs).length_le
      simp only [List.length_cons, List.length_append] at hlen hle
      omega
    simp [List.dropWhile_cons, hc]

theorem pyStrip_idem (l : Chars) : pyStrip (pyStrip l) = pyStrip l := by
  rw [pyStrip_eq_rdrop (pyStrip l), dropWhile_pyStrip, pyStrip_eq_rdrop l,
    List.rdropWhile_idempotent]

theorem splitGo_fuel (sep : Chars) :
    ∀ (f₁ : Nat) (f₂ : Nat) (l : Chars), l.length ≤ f₁ → l.length ≤ f₂ →
      splitGo sep f₁ l = splitGo sep f₂ l := by
  intro f₁
  induction f₁ with
  | zero =>
    intro f₂ l hl _
    have : l = [] := List.eq_nil_of_length_eq_zero (Nat.le_zero.mp hl)
    subst this
    cases f₂ <;> rfl
  | succ f ih =>
    intro f₂ l hl hl'
    cases l with
    | nil => cases f₂ <;> rfl
    | cons c rest =>
      cases f₂ with
      | zero => simp at hl'
      | succ f₂' =>
        simp only [List.length_cons, Nat.succ_le_succ_iff] at hl hl'
        simp only [splitGo]
        by_cases hp : isPrefixL sep (c :: rest) = true
        · simp only [hp, if_true]
          have hd : (rest.drop (sep.length - 1)).length ≤ rest.length := by
            simp [List.length_drop]
          rw [ih f₂' _ (le_trans hd hl) (le_trans hd hl')]
        · simp only [hp]
          rw [ih f₂' rest hl hl']
          rfl

theorem splitOnL_cons (sep : Chars) (c : Char) (rest : Chars) :
    splitOnL sep (c :: rest) =
      if isPrefixL sep (c :: rest) then
        [] :: splitOnL sep (rest.drop (sep.length - 1))
      else
        match splitOnL sep rest with
        | [] => [[c]]
        | h :: t => (c :: h) :: t := by
  show splitGo sep (rest.length + 1) (c :: rest) = _
  simp only [splitGo]
  by_cases hp : isPrefixL sep (c :: rest) = true
  · simp only [hp, if_true]
    rw [splitGo_fuel sep rest.length (rest.drop (sep.length - 1)).length
      (rest.drop (sep.length - 1)) (by simp [List.length_drop]) (le_refl _)]
    rfl
  · simp only [hp]
    rfl

theorem splitOnL_nil (sep : Chars) : splitOnL sep [] = [[]] := rfl

theorem splitOnL_ne_nil (sep l : Chars) : splitOnL sep l ≠ [] := by
  cases l with
  | nil => simp [splitOnL_nil]
  | cons c rest =>
    rw [splitOnL_cons]
    split
    · simp
    · split <;> simp

theorem isPrefixL_append_self (s r : Chars) : isPrefixL s (s ++ r) = true := by
  induction s with
  | nil => rfl
  | cons a as ih => simp [isPrefixL, ih]

theorem isPrefixL_exists {p l : Chars} (h : isPrefixL p l = true) :
    ∃ r, l = p ++ r := by
  induction p generalizing l with
  | nil => exact ⟨l, rfl⟩
  | cons a as ih =>
    cases l with
    | nil => simp [isPrefixL] at h
    | cons b bs =>
      simp only [isPrefixL, Bool.and_eq_true, beq_iff_eq] at h
      obtain ⟨rfl, h2⟩ := h
      obtain ⟨r, rfl⟩ := ih h2
      exact ⟨r, rfl⟩

theorem isPrefixL_cons_false {hc : Char} (X C : Chars) (h : hc ∉ C) :
    isPrefixL (hc :: X) C = false := by
  cases C with
  | nil => rfl
  | cons c r =>
    have : hc ≠ c := fun e => h (by simp [e])
    simp [isPrefixL, beq_eq_false_iff_ne, this]

theorem containsSub_false_of_head_notMem {hc : Char} (X l : Chars) (h : hc ∉ l) :
    containsSub l (hc :: X) = false := by
  induction l with
  | nil => rfl
  | cons c rest ih =>
    have h1 : hc ≠ c := fun e => h (by simp [e])
    have h2 : hc ∉ rest := fun m => h (List.mem_cons_of_mem _ m)
    simp [containsSub, isPrefixL, beq_eq_false_iff_ne, h1, ih h2]

theorem splitOnL_append_of_head_notMem {hc : Char} (sep' A rest : Chars)
    (hA : hc ∉ A) (h t : _) (hrest : splitOnL (hc :: sep') rest = h :: t) :
    splitOnL (hc :: sep') (A ++ rest) = (A ++ h) :: t := by
  induction A with
  | nil => simpa using hrest
  | cons c A' ih =>
    have hc1 : hc ≠ c := fun e => hA (by simp [e])
    rw [List.cons_append, splitOnL_cons]
    have hp : isPrefixL (hc :: sep') (c :: (A' ++ rest)) = false := by
      simp [isPrefixL, beq_eq_false_iff_ne, hc1]
    rw [hp]
    simp only [Bool.false_eq_true, if_false]
    rw [ih fun m => hA (List.mem_cons_of_mem _ m)]
    rfl

theorem splitOnL_sep_append {hc : Char} (sep' R : Chars) :
    splitOnL (hc :: sep') ((hc :: sep') ++ R) = [] :: splitOnL (hc :: sep') R := by
  rw [List.cons_append, splitOnL_cons]
  have hp : isPrefixL (hc :: sep') (hc :: (sep' ++ R)) = true := by
    have := isPrefixL_append_self (hc :: sep') R
    rwa [List.cons_append] at this
  rw [hp]
  simp only [if_true]
  congr 1
  simp [List.drop_left']

theorem containsSub_append_sep {hc : Char} (sep' A R : Chars) :
    containsSub (A ++ ((hc :: sep') ++ R)) (hc :: sep') = true := by
  induction A with
  | nil =>
    rw [List.nil_append, List.cons_append]
    have hp : isPrefixL (hc :: sep') (hc :: (sep' ++ R)) = true := by
      have := isPrefixL_append_self (hc :: sep') R
      rwa [List.cons_append] at this
    simp [containsSub, hp]
  | cons c A' ih =>
    rw [List.cons_append]
    simp only [containsSub, Bool.or_eq_true]
    refine Or.inr ?_
    simpa using ih

theorem containsSub_append_of_head_notMem {hc : Char} (sep' A R : Chars) (hA : hc ∉ A) :
    containsSub (A ++ R) (hc :: sep') = containsSub R (hc :: sep') := by
  induction A with
  | nil => rfl
  | cons c A' ih =>
    have hc1 : hc ≠ c := fun e => hA (by simp [e])
    rw [List.cons_append]
    have hp : isPrefixL (hc :: sep') (c :: (A' ++ R)) = false := by
      simp [isPrefixL, beq_eq_false_iff_ne, hc1]
    simp only [containsSub, hp, Bool.false_or]
    exact ih fun m => hA (List.mem_cons_of_mem _ m)

theorem splitOnL_of_not_contains (sep l : Chars) (h : containsSub l sep = false) :
    splitOnL sep l = [l] := by
  induction l with
  | nil =>
    cases sep with
    | nil => simp [containsSub, isPrefixL] at h
    | cons a as => rfl
  | cons c rest ih =>
    simp only [containsSub, Bool.or_eq_false_iff] at h
    rw [splitOnL_cons, h.1]
    simp only [Bool.false_eq_true, if_false]
    rw [ih h.2]

theorem isPrefixL_append_left (p q l : Chars) (h : isPrefixL (p ++ q) l = true) :
    isPrefixL p l = true := by
  induction p generalizing l with
  | nil => rfl
  | cons a as ih =>
    cases l with
    | nil => simp [isPrefixL] at h
    | cons b bs =>
      rw [List.cons_append] at h
      simp only [isPrefixL, Bool.and_eq_true] at h ⊢
      exact ⟨h.1, ih bs h.2⟩

theorem containsSub_mono (l p q : Chars) (h : containsSub l (p ++ q) = true) :
    containsSub l p = true := by
  induction l with
  | nil =>
    simp only [containsSub] at h ⊢
    exact isPrefixL_append_left p q [] h
  | cons c rest ih =>
    simp only [containsSub, Bool.or_eq_true] at h ⊢
    rcases h with h | h
    · exact Or.inl (isPrefixL_append_left p q _ h)
    · exact Or.inr (ih h)

theorem fenceJson_cons : fenceJson = bt :: (bt :: (bt :: jsonTail)) := rfl

theorem fence_cons : fence = bt :: [bt, bt] := rfl

theorem splitOnL_fJ_sep_append (R : Chars) :
    splitOnL fenceJson (fenceJson ++ R) = [] :: splitOnL fenceJson R := by
  rw [fenceJson_cons]
  exact splitOnL_sep_append _ _

theorem splitOnL_fJ_append (A rest h : Chars) (t : List Chars) (hA : bt ∉ A)
    (hrest : splitOnL fenceJson rest = h :: t) :
    splitOnL fenceJson (A ++ rest) = (A ++ h) :: t := by
  rw [fenceJson_cons] at hrest ⊢
  exact splitOnL_append_of_head_notMem _ A rest hA h t hrest

theorem splitOnL_f_sep_append (R : Chars) :
    splitOnL fence (fence ++ R) = [] :: splitOnL fence R := by
  rw [fence_cons]
  exact splitOnL_sep_append _ _

theorem splitOnL_f_append (A rest h : Chars) (t : List Chars) (hA : bt ∉ A)
    (hrest : splitOnL fence rest = h :: t) :
    splitOnL fence (A ++ rest) = (A ++ h) :: t := by
  rw [fence_cons] at hrest ⊢
  exact splitOnL_append_of_head_notMem _ A rest hA h t hrest

/-- When the stripped response decomposes as prose, a JSON-labelled fence,
a payload, a closing fence and a trailer, and the prose, payload and
trailer are backtick-free, the extraction step selects exactly the
payload. -/
theorem extract_fenced_json (r A B C : Chars) (hA : bt ∉ A) (hB : bt ∉ B) (hC : bt ∉ C)
    (hdec : pyStrip r = A ++ (fenceJson ++ (B ++ (fence ++ C)))) :
    pyExtractSegment r = B := by
  have hcont : containsSub (pyStrip r) fenceJson = true := by
    rw [hdec, fenceJson_cons]
    exact @containsSub_append_sep bt (bt :: (bt :: jsonTail)) A (B ++ (fence ++ C))
  have hsplit1 : splitOnL fenceJson (pyStrip r) =
      A :: splitOnL fenceJson (B ++ (fence ++ C)) := by
    rw [hdec]
    have h5 := splitOnL_fJ_sep_append (B ++ (fence ++ C))
    have h4 := splitOnL_fJ_append A (fenceJson ++ (B ++ (fence ++ C))) _ _ hA h5
    simpa using h4
  have hBf : containsSub B fence = false := by
    rw [fence_cons]
    exact containsSub_false_of_head_notMem _ B hB
  by_cases hpre : isPrefixL jsonTail C = true
  · obtain ⟨C₂, rfl⟩ := isPrefixL_exists hpre
    have hs2 : splitOnL fenceJson (B ++ (fence ++ (jsonTail ++ C₂))) =
        B :: splitOnL fenceJson C₂ := by
      have hshape : fence ++ (jsonTail ++ C₂) = fenceJson ++ C₂ := by
        rw [fenceJson]
        exact (List.append_assoc _ _ _).symm
      rw [hshape]
      have h5 := splitOnL_fJ_sep_append C₂
      have h4 := splitOnL_fJ_append B (fenceJson ++ C₂) _ _ hB h5
      simpa using h4
    have hsB : splitOnL fence B = [B] := splitOnL_of_not_contains _ _ hBf
    simp [pyExtractSegment, hcont, hsplit1, hs2, hsB]
  · have hpre' : isPrefixL jsonTail C = false := by
      rwa [Bool.not_eq_true] at hpre
    have hnc : containsSub (B ++ (fence ++ C)) fenceJson = false := by
      rw [fenceJson_cons, containsSub_append_of_head_notMem _ B _ hB]
      have e : fence ++ C = bt :: (bt :: (bt :: C)) := rfl
      rw [e]
      have h1 : isPrefixL (bt :: jsonTail) C = false := isPrefixL_cons_false _ C hC
      have h2 : isPrefixL (bt :: (bt :: jsonTail)) C = false := isPrefixL_cons_false _ C hC
      have h3 : containsSub C (bt :: (bt :: (bt :: jsonTail))) = false :=
        containsSub_false_of_head_notMem _ C hC
      simp [containsSub, isPrefixL, hpre', h1, h2, h3]
    have hs3 : splitOnL fenceJson (B ++ (fence ++ C)) = [B ++ (fence ++ C)] :=
      splitOnL_of_not_contains _ _ hnc
    have hs4 : splitOnL fence (B ++ (fence ++ C)) = B :: splitOnL fence C := by
      have h5 := splitOnL_f_sep_append C
      have h4 := splitOnL_f_append B (fence ++ C) _ _ hB h5
      simpa using h4
    simp [pyExtractSegment, hcont, hsplit1, hs3, hs4]

/-- When the stripped response contains no fence at all, the extraction
step is the identity on the stripped text. -/
theorem extract_unfenced (r : Chars) (h : containsSub (pyStrip r) fence = false) :
    pyExtractSegment r = pyStrip r := by
  have h1 : containsSub (pyStrip r) fenceJson = false := by
    cases hc : containsSub (pyStrip r) fenceJson with
    | false => rfl
    | true =>
      have : containsSub (pyStrip r) fence = true := by
        have e : fenceJson = fence ++ jsonTail := rfl
        rw [e] at hc
        exact containsSub_mono _ _ _ hc
      rw [this] at h
      exact absurd h (by simp)
  simp [pyExtractSegment, h1, h]

/-! ### Pipeline characterisation lemmas -/

theorem analyze_true_eq (f : Behavior) (msg : Chars) :
    analyze f msg true = run_analysis f msg := rfl

theorem analyze_false_eq (f : Behavior) (msg : Chars) :
    analyze f msg false =
      ([⟨.intent, msg, none⟩, ⟨.emotion, msg, none⟩, ⟨.risk, msg, some (riskContext f msg)⟩],
       some [(intentK, f .intent msg none), (emotionK, f .emotion msg none),
             (riskK, f .risk msg (some (riskContext f msg)))]) := rfl

theorem run_analysis_gate_none (f : Behavior) (msg : Chars)
    (hg : gateOutcome (f .risk msg (some (riskContext f msg))) = none) :
    run_analysis f msg =
      ([⟨.intent, msg, none⟩, ⟨.emotion, msg, none⟩, ⟨.risk, msg, some (riskContext f msg)⟩],
       none) := by
  simp [run_analysis, hg]

theorem run_analysis_gate_false (f : Behavior) (msg : Chars)
    (hg : gateOutcome (f .risk msg (some (riskContext f msg))) = some false) :
    run_analysis f msg =
      ([⟨.intent, msg, none⟩, ⟨.emotion, msg, none⟩, ⟨.risk, msg, some (riskContext f msg)⟩],
       some [(intentK, f .intent msg none), (emotionK, f .emotion msg none),
             (riskK, f .risk msg (some (riskContext f msg)))]) := by
  simp [run_analysis, hg]

theorem run_analysis_gate_true (f : Behavior) (msg : Chars)
    (hg : gateOutcome (f .risk msg (some (riskContext f msg))) = some true) :
    run_analysis f msg =
      ([⟨.intent, msg, none⟩, ⟨.emotion, msg, none⟩, ⟨.risk, msg, some (riskContext f msg)⟩,
        ⟨.rewrite, msg,
          some [(intentK, f .intent msg none), (emotionK, f .emotion msg none),
                (riskK, f .risk msg (some (riskContext f msg)))]⟩],
       some [(intentK, f .intent msg none), (emotionK, f .emotion msg none),
             (riskK, f .risk msg (some (riskContext f msg))),
             (rewriteK, f .rewrite msg
               (some [(intentK, f .intent msg none), (emotionK, f .emotion msg none),
                      (riskK, f .risk msg (some (riskContext f msg)))]))]) := by
  simp [run_analysis, hg]

theorem runMsgs_complete (f : Behavior) (inc : Bool) (ms : List Chars)
    (h : ∀ m ∈ ms, ((analyze f m inc).2).isSome = true) :
    runMsgs f inc ms = (ms.map (fun m => ((analyze f m inc).2).getD []), false) := by
  induction ms with
  | nil => rfl
  | cons m rest ih =>
    have hm := h m (List.mem_cons_self m rest)
    rcases hs : (analyze f m inc).2 with _ | d
    · rw [hs] at hm
      simp at hm
    · simp only [runMsgs, hs]
      rw [ih fun m' hm' => h m' (List.mem_cons_of_mem _ hm')]
      simp [hs]

theorem getD_map_of_lt (g : Chars → Dict) :
    ∀ (ms : List Chars) (i : Nat), i < ms.length →
      (ms.map g).getD i [] = g (ms.getD i []) := by
  intro ms
  induction ms with
  | nil =>
    intro i hi
    simp at hi
  | cons m rest ih =>
    intro i hi
    cases i with
    | zero => rfl
    | succ i' =>
      simp only [List.map_cons, List.getD_cons_succ]
      exact ih i' (by simpa using hi)

theorem intentK_ne_emotionK : intentK ≠ emotionK := by decide

theorem intentK_ne_riskK : intentK ≠ riskK := by decide

theorem emotionK_ne_riskK : emotionK ≠ riskK := by decide

theorem intentK_ne_rewriteK : intentK ≠ rewriteK := by decide

theorem emotionK_ne_rewriteK : emotionK ≠ rewriteK := by decide

theorem riskK_ne_rewriteK : riskK ≠ rewriteK := by decide

theorem errK_ne_scoreK : errK ≠ scoreK := by decide

theorem rawK_ne_scoreK : rawK ≠ scoreK := by decide

/-! ### Claim theorems -/

/-- Claim C3: for every input message, the pipeline invokes the stages in
the fixed order Intent, Emotion, Risk, then optionally Rewrite, and in no
other order; the embedding is sequential, so the trace equality also
expresses that the calls are issued one after the other, never in
parallel.  This holds for the CLI orchestrator (either value of the
rewrite-skipping flag) and for the web orchestrator. -/
theorem claim_stage_order (f : Behavior) (msg : Chars) (inc : Bool) :
    ((analyze f msg inc).1.map AgentCall.stage = [.intent, .emotion, .risk] ∨
     (analyze f msg inc).1.map AgentCall.stage = [.intent, .emotion, .risk, .rewrite]) ∧
    ((run_analysis f msg).1.map AgentCall.stage = [.intent, .emotion, .risk] ∨
     (run_analysis f msg).1.map AgentCall.stage = [.intent, .emotion, .risk, .rewrite]) := by
  have hrun : ∀ (g : Behavior) (m : Chars),
      (run_analysis g m).1.map AgentCall.stage = [.intent, .emotion, .risk] ∨
      (run_analysis g m).1.map AgentCall.stage = [.intent, .emotion, .risk, .rewrite] := by
    intro g m
    rcases hg : gateOutcome (g .risk m (some (riskContext g m))) with _ | b
    · rw [run_analysis_gate_none g m hg]
      left
      rfl
    · cases b
      · rw [run_analysis_gate_false g m hg]
        left
        rfl
      · rw [run_analysis_gate_true g m hg]
        right
        rfl
  constructor
  · cases inc
    · rw [analyze_false_eq]
      left
      rfl
    · rw [analyze_true_eq]
      exact hrun f msg
  · exact hrun f msg

/-- Direct application of the stage-order theorem at a concrete behaviour
and message. -/
theorem claim_stage_order_witness :
    ((analyze (fun _ _ _ => JVal.jnull) "m".toList true).1.map AgentCall.stage =
       [.intent, .emotion, .risk] ∨
     (analyze (fun _ _ _ => JVal.jnull) "m".toList true).1.map AgentCall.stage =
       [.intent, .emotion, .risk, .rewrite]) ∧
    ((run_analysis (fun _ _ _ => JVal.jnull) "m".toList).1.map AgentCall.stage =
       [.intent, .emotion, .risk] ∨
     (run_analysis (fun _ _ _ => JVal.jnull) "m".toList).1.map AgentCall.stage =
       [.intent, .emotion, .risk, .rewrite]) :=
  claim_stage_order (fun _ _ _ => JVal.jnull) "m".toList true

/-- Claim C5: the Risk agent is invoked in every run, and every Risk
invocation carries a context dict holding the Intent result under the key
"intent" and the Emotion result under the key "emotion"; this covers both
orchestrators. -/
theorem claim_risk_context (f : Behavior) (msg : Chars) (inc : Bool) :
    (∀ c ∈ (analyze f msg inc).1, c.stage = .risk →
        c.context = some (riskContext f msg)) ∧
    (∀ c ∈ (run_analysis f msg).1, c.stage = .risk →
        c.context = some (riskContext f msg)) ∧
    dictLookup (riskContext f msg) intentK = some (f .intent msg none) ∧
    dictLookup (riskContext f msg) emotionK = some (f .emotion msg none) ∧
    Stage.risk ∈ (analyze f msg inc).1.map AgentCall.stage ∧
    Stage.risk ∈ (run_analysis f msg).1.map AgentCall.stage := by
  have hrunctx : ∀ (c : AgentCall), c ∈ (run_analysis f msg).1 → c.stage = .risk →
      c.context = some (riskContext f msg) := by
    intro c hc hs
    rcases hg : gateOutcome (f .risk msg (some (riskContext f msg))) with _ | b
    · rw [run_analysis_gate_none f msg hg] at hc
      simp only [List.mem_cons, List.not_mem_nil, or_false] at hc
      rcases hc with rfl | rfl | rfl
      · simp at hs
      · simp at hs
      · rfl
    · cases b
      · rw [run_analysis_gate_false f msg hg] at hc
        simp only [List.mem_cons, List.not_mem_nil, or_false] at hc
        rcases hc with rfl | rfl | rfl
        · simp at hs
        · simp at hs
        · rfl
      · rw [run_analysis_gate_true f msg hg] at hc
        simp only [List.mem_cons, List.not_mem_nil, or_false] at hc
        rcases hc with rfl | rfl | rfl | rfl
        · simp at hs
        · simp at hs
        · rfl
        · simp at hs
  have hrunmem : Stage.risk ∈ (run_analysis f msg).1.map AgentCall.stage := by
    rcases hg : gateOutcome (f .risk msg (some (riskContext f msg))) with _ | b
    · rw [run_analysis_gate_none f msg hg]
      simp
    · cases b
      · rw [run_analysis_gate_false f msg hg]
        simp
      · rw [run_analysis_gate_true f msg hg]
        simp
  refine ⟨?_, hrunctx, ?_, ?_, ?_, hrunmem⟩
  · intro c hc hs
    cases inc
    · rw [analyze_false_eq] at hc
      simp only [List.mem_cons, List.not_mem_nil, or_false] at hc
      rcases hc with rfl | rfl | rfl
      · simp at hs
      · simp at hs
      · rfl
    · rw [analyze_true_eq] at hc
      exact hrunctx c hc hs
  · simp [riskContext, dictLookup]
  · simp [riskContext, dictLookup, intentK_ne_emotionK]
  · cases inc
    · rw [analyze_false_eq]
      simp
    · rw [analyze_true_eq]
      exact hrunmem

/-- Application of the risk-context theorem at a concrete behaviour: the
concrete Risk call in the web orchestrator's trace carries the context
dict, and that dict contains the Intent result. -/
theorem claim_risk_context_witness :
    (⟨Stage.risk, "m".toList,
        some (riskContext (fun _ _ _ => JVal.jnull) "m".toList)⟩ : AgentCall).context =
      some (riskContext (fun _ _ _ => JVal.jnull) "m".toList) ∧
    dictLookup (riskContext (fun _ _ _ => JVal.jnull) "m".toList) intentK =
      some JVal.jnull :=
  ⟨(claim_risk_context (fun _ _ _ => JVal.jnull) "m".toList false).2.1
      ⟨Stage.risk, "m".toList, some (riskContext (fun _ _ _ => JVal.jnull) "m".toList)⟩
      (by exact List.Mem.tail _ (List.Mem.tail _ (List.Mem.head _))) rfl,
   (claim_risk_context (fun _ _ _ => JVal.jnull) "m".toList false).2.2.1⟩

/-- Claim C9: whenever a pipeline run completes, the returned mapping has
exactly the keys "intent", "emotion", "risk" in insertion order, plus
optionally "rewrite" at the end, and no other key; this holds whatever
values the stages returned, including degraded error mappings. -/
theorem claim_result_keys (f : Behavior) (msg : Chars) (inc : Bool) :
    (∀ d, (analyze f msg inc).2 = some d →
       (d.map Prod.fst = [intentK, emotionK, riskK] ∨
        d.map Prod.fst = [intentK, emotionK, riskK, rewriteK])) ∧
    (∀ d, (run_analysis f msg).2 = some d →
       (d.map Prod.fst = [intentK, emotionK, riskK] ∨
        d.map Prod.fst = [intentK, emotionK, riskK, rewriteK])) := by
  have hrun : ∀ d, (run_analysis f msg).2 = some d →
      (d.map Prod.fst = [intentK, emotionK, riskK] ∨
       d.map Prod.fst = [intentK, emotionK, riskK, rewriteK]) := by
    intro d hd
    rcases hg : gateOutcome (f .risk msg (some (riskContext f msg))) with _ | b
    · have h2 : (run_analysis f msg).2 = none := by
        rw [run_analysis_gate_none f msg hg]
      rw [h2] at hd
      exact absurd hd (by simp)
    · cases b
      · have h2 : (run_analysis f msg).2 =
            some [(intentK, f .intent msg none), (emotionK, f .emotion msg none),
                  (riskK, f .risk msg (some (riskContext f msg)))] := by
          rw [run_analysis_gate_false f msg hg]
        rw [h2] at hd
        injection hd with hd
        subst hd
        left
        rfl
      · have h2 : (run_analysis f msg).2 =
            some [(intentK, f .intent msg none), (emotionK, f .emotion msg none),
                  (riskK, f .risk msg (some (riskContext f msg))),
                  (rewriteK, f .rewrite msg
                    (some [(intentK, f .intent msg none), (emotionK, f .emotion msg none),
                           (riskK, f .risk msg (some (riskContext f msg)))]))] := by
          rw [run_analysis_gate_true f msg hg]
        rw [h2] at hd
        injection hd with hd
        subst hd
        right
        rfl
  constructor
  · intro d hd
    cases inc
    · have h2 : (analyze f msg false).2 =
          some [(intentK, f .intent msg none), (emotionK, f .emotion msg none),
                (riskK, f .risk msg (some (riskContext f msg)))] := by
        rw [analyze_false_eq]
      rw [h2] at hd
      injection hd with hd
      subst hd
      left
      rfl
    · rw [analyze_true_eq] at hd
      exact hrun d hd
  · exact hrun

/-- Application of the result-keys theorem at a concrete behaviour whose
risk score opens the gate. -/
theorem claim_result_keys_witness :
    [(intentK, JVal.jobj []), (emotionK, JVal.jobj []),
     (riskK, JVal.jobj [(scoreK, JVal.jnum 8)]),
     (rewriteK, JVal.jobj [])].map Prod.fst = [intentK, emotionK, riskK] ∨
    [(intentK, JVal.jobj []), (emotionK, JVal.jobj []),
     (riskK, JVal.jobj [(scoreK, JVal.jnum 8)]),
     (rewriteK, JVal.jobj [])].map Prod.fst = [intentK, emotionK, riskK, rewriteK] :=
  (claim_result_keys
      (fun s _ _ => match s with
        | .risk => JVal.jobj [(scoreK, JVal.jnum 8)]
        | _ => JVal.jobj []) "m".toList true).2
    [(intentK, JVal.jobj []), (emotionK, JVal.jobj []),
     (riskK, JVal.jobj [(scoreK, JVal.jnum 8)]),
     (rewriteK, JVal.jobj [])] (by rfl)

/-- Claim C1 is false as stated: take a risk result whose
"overall_risk_score" field is the string "8" — present and coercible to a
number that is at least 4.  The claim then requires the rewrite stage to
run and the "rewrite" key to be present (or, under its non-numeric clause,
that the score be treated as 0 and a result without the key be returned).
Instead the Python comparison raises a TypeError: the run aborts with no
Analysis Result at all and the rewrite stage is never invoked. -/
theorem claim_rewrite_gate_cex :
    (run_analysis (fun s _ _ => match s with
        | .risk => JVal.jobj [(scoreK, JVal.jstr ['8'])]
        | _ => JVal.jobj []) "m".toList).2 = none ∧
    Stage.rewrite ∉ (run_analysis (fun s _ _ => match s with
        | .risk => JVal.jobj [(scoreK, JVal.jstr ['8'])]
        | _ => JVal.jobj []) "m".toList).1.map AgentCall.stage ∧
    dictLookup [(scoreK, JVal.jstr ['8'])] scoreK = some (JVal.jstr ['8']) := by
  refine ⟨rfl, ?_, rfl⟩
  decide

/-- Claim C1 (amended): in the web orchestrator, the rewrite stage runs
and the "rewrite" key is present exactly when the gate expression
evaluates to true; the gate evaluates the risk mapping's
"overall_risk_score" with default 0, so a missing key closes the gate, an
integer score opens it exactly when it is at least 4, and a present
string-valued score makes the comparison raise so that the run aborts
with no result (rather than being treated as 0).  In the CLI, disabling
rewrite skips the stage regardless of the score. -/
theorem claim_rewrite_gate (f : Behavior) (msg : Chars) :
    (gateOutcome (f .risk msg (some (riskContext f msg))) = some true →
       ∃ d, (run_analysis f msg).2 = some d ∧
         dictLookup d rewriteK = some (f .rewrite msg
           (some [(intentK, f .intent msg none), (emotionK, f .emotion msg none),
                  (riskK, f .risk msg (some (riskContext f msg)))])) ∧
         Stage.rewrite ∈ (run_analysis f msg).1.map AgentCall.stage) ∧
    (gateOutcome (f .risk msg (some (riskContext f msg))) = some false →
       ∃ d, (run_analysis f msg).2 = some d ∧
         dictLookup d rewriteK = none ∧
         Stage.rewrite ∉ (run_analysis f msg).1.map AgentCall.stage) ∧
    (gateOutcome (f .risk msg (some (riskContext f msg))) = none →
       (run_analysis f msg).2 = none ∧
       Stage.rewrite ∉ (run_analysis f msg).1.map AgentCall.stage) ∧
    (∃ d, (analyze f msg false).2 = some d ∧
       dictLookup d rewriteK = none ∧
       Stage.rewrite ∉ (analyze f msg false).1.map AgentCall.stage) ∧
    (∀ kvs, dictLookup kvs scoreK = none → gateOutcome (.jobj kvs) = some false) ∧
    (∀ kvs n, dictLookup kvs scoreK = some (.jnum n) →
       gateOutcome (.jobj kvs) = some (decide (4 ≤ n))) ∧
    (∀ kvs s, dictLookup kvs scoreK = some (.jstr s) →
       gateOutcome (.jobj kvs) = none) := by
  refine ⟨?_, ?_, ?_, ?_, ?_, ?_, ?_⟩
  · intro hg
    rw [run_analysis_gate_true f msg hg]
    refine ⟨_, rfl, ?_, by simp⟩
    simp [dictLookup, intentK_ne_rewriteK, emotionK_ne_rewriteK, riskK_ne_rewriteK]
  · intro hg
    rw [run_analysis_gate_false f msg hg]
    refine ⟨_, rfl, ?_, by simp⟩
    simp [dictLookup, intentK_ne_rewriteK, emotionK_ne_rewriteK, riskK_ne_rewriteK]
  · intro hg
    rw [run_analysis_gate_none f msg hg]
    exact ⟨rfl, by simp⟩
  · rw [analyze_false_eq]
    refine ⟨_, rfl, ?_, by simp⟩
    simp [dictLookup, intentK_ne_rewriteK, emotionK_ne_rewriteK, riskK_ne_rewriteK]
  · intro kvs h
    simp [gateOutcome, pyDictGet, h, pyGeNum]
  · intro kvs n h
    simp [gateOutcome, pyDictGet, h, pyGeNum]
  · intro kvs s h
    simp [gateOutcome, pyDictGet, h, pyGeNum]

/-- Application of the amended gate theorem at a behaviour whose risk
score is the integer 8: the gate opens and the rewrite key is present. -/
theorem claim_rewrite_gate_witness :
    ∃ d, (run_analysis (fun s _ _ => match s with
        | .risk => JVal.jobj [(scoreK, JVal.jnum 8)]
        | _ => JVal.jobj []) "m".toList).2 = some d ∧
      dictLookup d rewriteK = some (JVal.jobj []) ∧
      Stage.rewrite ∈ (run_analysis (fun s _ _ => match s with
        | .risk => JVal.jobj [(scoreK, JVal.jnum 8)]
        | _ => JVal.jobj []) "m".toList).1.map AgentCall.stage :=
  (claim_rewrite_gate (fun s _ _ => match s with
      | .risk => JVal.jobj [(scoreK, JVal.jnum 8)]
      | _ => JVal.jobj []) "m".toList).1 rfl

/-- Claim C4: both renderers' severity-colour maps are pure functions of
the score, band scores 1-3 low, 4-6 medium, 7-10 high, and under the
correspondence low=green, medium=yellow, high=red the terminal renderer
and the web renderer agree on every integer score. -/
theorem claim_color_bands (s : Int) :
    spec_band_to_color (get_risk_color_web s) = get_risk_color_cli s ∧
    (1 ≤ s ∧ s ≤ 3 → get_risk_color_web s = "low" ∧ get_risk_color_cli s = "green") ∧
    (4 ≤ s ∧ s ≤ 6 → get_risk_color_web s = "medium" ∧ get_risk_color_cli s = "yellow") ∧
    (7 ≤ s ∧ s ≤ 10 → get_risk_color_web s = "high" ∧ get_risk_color_cli s = "red") := by
  unfold get_risk_color_web get_risk_color_cli spec_band_to_color
  by_cases h3 : s ≤ 3
  · refine ⟨by simp [h3], fun _ => by simp [h3], ?_, ?_⟩
    · intro h
      exact absurd h3 (by omega)
    · intro h
      exact absurd h3 (by omega)
  · by_cases h6 : s ≤ 6
    · refine ⟨by simp [h3, h6], ?_, fun _ => by simp [h3, h6], ?_⟩
      · intro h
        exact absurd h.2 (by omega)
      · intro h
        exact absurd h.1 (by omega)
    · refine ⟨by simp [h3, h6], ?_, ?_, fun _ => by simp [h3, h6]⟩
      · intro h
        exact absurd h.2 (by omega)
      · intro h
        exact absurd h.2 (by omega)

/-- Application of the colour-band theorem at one score from each band. -/
theorem claim_color_bands_witness :
    (get_risk_color_web 2 = "low" ∧ get_risk_color_cli 2 = "green") ∧
    (get_risk_color_web 5 = "medium" ∧ get_risk_color_cli 5 = "yellow") ∧
    (get_risk_color_web 8 = "high" ∧ get_risk_color_cli 8 = "red") :=
  ⟨(claim_color_bands 2).2.1 (by decide),
   (claim_color_bands 5).2.2.1 (by decide),
   (claim_color_bands 8).2.2.2 (by decide)⟩

/-- Claim C8: constructing an agent over a filesystem in which the prompt
file is missing fails at construction time, before any analysis is
possible; when the file exists the template is loaded once at
construction, and an analysis call leaves the agent state (hence the
loaded template) unchanged. -/
theorem claim_template_fatal :
    (∀ (fs : Chars → Option Chars) (p : Chars), fs p = none → mkBaseAgent fs p = none) ∧
    (∀ (fr : Chars → Option Chars) (p t : Chars), fr p = some t →
       mkBaseAgent fr p = some ⟨t⟩) ∧
    (∀ (llm : Chars → Chars) (loads : Chars → Option JVal) (ctxStr : Option Dict → Chars)
       (a : BaseAgentM) (msg : Chars) (ctx : Option Dict),
       (agentAnalyze llm loads ctxStr a msg ctx).2 = a) := by
  refine ⟨?_, ?_, ?_⟩
  · intro fs p h
    simp [mkBaseAgent, load_prompt, h]
  · intro fr p t h
    simp [mkBaseAgent, load_prompt, h]
  · intro llm loads ctxStr a msg ctx
    rfl

/-- Application of the template theorem at a concrete filesystem with and
without the prompt file. -/
theorem claim_template_fatal_witness :
    mkBaseAgent (fun _ => none) "intent.txt".toList = none ∧
    mkBaseAgent (fun _ => some "T".toList) "intent.txt".toList = some ⟨"T".toList⟩ ∧
    (agentAnalyze id (fun _ => none) (fun _ => []) ⟨"T".toList⟩ "m".toList none).2 =
      ⟨"T".toList⟩ :=
  ⟨claim_template_fatal.1 (fun _ => none) "intent.txt".toList rfl,
   claim_template_fatal.2.1 (fun _ => some "T".toList) "intent.txt".toList "T".toList rfl,
   claim_template_fatal.2.2 id (fun _ => none) (fun _ => []) ⟨"T".toList⟩ "m".toList none⟩

/-- Claim C10: every message produced by the file-mode splitter is already
stripped of surrounding whitespace and is non-empty, so files that begin
or end with the separator, or contain consecutive separators or
whitespace-only segments, never yield an analysis of an empty message. -/
theorem claim_segments_stripped (c m : Chars) (h : m ∈ fileMessages c) :
    pyStrip m = m ∧ m ≠ [] := by
  unfold fileMessages at h
  rw [List.mem_filterMap] at h
  obtain ⟨m₀, _, hm⟩ := h
  have hm' : (if pyStrip m₀ = [] then none else some (pyStrip m₀)) = some m := hm
  by_cases hz : pyStrip m₀ = []
  · rw [if_pos hz] at hm'
    exact absurd hm' (by simp)
  · rw [if_neg hz] at hm'
    injection hm' with hm'
    subst hm'
    exact ⟨pyStrip_idem m₀, hz⟩

/-- Application of the splitter theorem to a file that begins and ends
with the separator and contains a whitespace-only segment. -/
theorem claim_segments_stripped_witness :
    "a".toList ∈ fileMessages "--- a ---  \n ---b---".toList ∧
    (pyStrip "a".toList = "a".toList ∧ "a".toList ≠ []) :=
  ⟨by decide, claim_segments_stripped "--- a ---  \n ---b---".toList "a".toList (by decide)⟩

/-- Claim C7: in file mode, when every segment's analysis completes, the
program produces exactly one Analysis Result per "---"-delimited segment,
in file order, the i-th result being the analysis of the i-th segment
alone; consequently two files that agree on their i-th segment produce
identical i-th results whatever the other segments are (no cross-message
context leakage; the agents hold no mutable state, which the behaviour
abstraction reflects). -/
theorem claim_file_independence (f : Behavior) (inc : Bool) (raw raw' : Chars)
    (h : ∀ m ∈ fileMessages (pyStrip raw), ((analyze f m inc).2).isSome = true)
    (h' : ∀ m ∈ fileMessages (pyStrip raw'), ((analyze f m inc).2).isSome = true) :
    (runFileCLI f inc raw).1 =
      (fileMessages (pyStrip raw)).map (fun m => ((analyze f m inc).2).getD []) ∧
    (runFileCLI f inc raw).2 = false ∧
    (runFileCLI f inc raw).1.length = (fileMessages (pyStrip raw)).length ∧
    (∀ i, i < (fileMessages (pyStrip raw)).length →
       i < (fileMessages (pyStrip raw')).length →
       (fileMessages (pyStrip raw)).getD i [] = (fileMessages (pyStrip raw')).getD i [] →
       (runFileCLI f inc raw).1.getD i [] = (runFileCLI f inc raw').1.getD i []) := by
  have e1 := runMsgs_complete f inc (fileMessages (pyStrip raw)) h
  have e2 := runMsgs_complete f inc (fileMessages (pyStrip raw')) h'
  have g1 : (runFileCLI f inc raw).1 =
      (fileMessages (pyStrip raw)).map (fun m => ((analyze f m inc).2).getD []) :=
    congrArg Prod.fst e1
  have g2 : (runFileCLI f inc raw').1 =
      (fileMessages (pyStrip raw')).map (fun m => ((analyze f m inc).2).getD []) :=
    congrArg Prod.fst e2
  refine ⟨g1, congrArg Prod.snd e1, ?_, ?_⟩
  · rw [g1]
    simp
  · intro i hi hi' he
    rw [g1, g2, getD_map_of_lt _ _ i hi, getD_map_of_lt _ _ i hi', he]

/-- Application of the file-independence theorem: two files sharing their
first segment give the same first result, here with the always-null
behaviour and the rewrite stage disabled. -/
theorem claim_file_independence_witness :
    (runFileCLI (fun _ _ _ => JVal.jnull) false "a---b".toList).1.getD 0 [] =
      (runFileCLI (fun _ _ _ => JVal.jnull) false "a---c".toList).1.getD 0 [] :=
  (claim_file_independence (fun _ _ _ => JVal.jnull) false "a---b".toList "a---c".toList
      (by decide) (by decide)).2.2.2 0 (by decide) (by decide) (by decide)

/-- Claim C6: a JSON parse failure is returned as an ordinary
error-carrying mapping — never a raised fault — and the orchestrator
treats such a value like any other stage result: a degraded Risk result
closes the gate and the run still completes with the three stage keys,
and a degraded Intent result does not stop Emotion and Risk from being
invoked. -/
theorem claim_degrade_to_data :
    (∀ (loads : Chars → Option JVal) (r : Chars),
       loads (pyStrip (pyExtractSegment r)) = none →
       pyParseJsonResponse loads r =
         .jobj [(errK, .jstr errMsgChars), (rawK, .jstr r)]) ∧
    (∀ (f : Behavior) (msg : Chars) (e raw : JVal),
       f .risk msg (some (riskContext f msg)) = .jobj [(errK, e), (rawK, raw)] →
       (run_analysis f msg).2 =
         some [(intentK, f .intent msg none), (emotionK, f .emotion msg none),
               (riskK, f .risk msg (some (riskContext f msg)))]) ∧
    (∀ (f : Behavior) (msg : Chars) (e raw : JVal),
       f .intent msg none = .jobj [(errK, e), (rawK, raw)] →
       (Stage.emotion ∈ (run_analysis f msg).1.map AgentCall.stage ∧
        Stage.risk ∈ (run_analysis f msg).1.map AgentCall.stage)) := by
  refine ⟨?_, ?_, ?_⟩
  · intro loads r h
    simp [pyParseJsonResponse, h]
  · intro f msg e raw h
    have hg : gateOutcome (f .risk msg (some (riskContext f msg))) = some false := by
      rw [h]
      simp [gateOutcome, pyDictGet, dictLookup, errK_ne_scoreK, rawK_ne_scoreK, pyGeNum]
    rw [run_analysis_gate_false f msg hg]
  · intro f msg e raw h
    rcases hg : gateOutcome (f .risk msg (some (riskContext f msg))) with _ | b
    · rw [run_analysis_gate_none f msg hg]
      constructor <;> simp
    · cases b
      · rw [run_analysis_gate_false f msg hg]
        constructor <;> simp
      · rw [run_analysis_gate_true f msg hg]
        constructor <;> simp

/-- Application of the degrade-to-data theorem: a concrete unparseable
response yields the error mapping, and a behaviour whose Risk stage
degraded still completes the run with all three keys. -/
theorem claim_degrade_to_data_witness :
    pyParseJsonResponse miniLoads "not json".toList =
      JVal.jobj [(errK, .jstr errMsgChars), (rawK, .jstr "not json".toList)] ∧
    (run_analysis (fun s _ _ => match s with
        | .risk => JVal.jobj [(errK, JVal.jstr []), (rawK, JVal.jstr [])]
        | _ => JVal.jnull) "m".toList).2 =
      some [(intentK, JVal.jnull), (emotionK, JVal.jnull),
            (riskK, JVal.jobj [(errK, JVal.jstr []), (rawK, JVal.jstr [])])] :=
  ⟨claim_degrade_to_data.1 miniLoads "not json".toList rfl,
   claim_degrade_to_data.2.1 (fun s _ _ => match s with
      | .risk => JVal.jobj [(errK, JVal.jstr []), (rawK, JVal.jstr [])]
      | _ => JVal.jnull) "m".toList (JVal.jstr []) (JVal.jstr []) rfl⟩

theorem errK_ne_rawK : errK ≠ rawK := by decide

/-- Claim C2 (amended): (a) when the stripped response splits as prose, a
"```json" fence, a payload, a closing fence and a trailer, with the
prose, payload and trailer backtick-free, the parsed result equals the
parse of the payload alone, whatever surrounds the fence; (b) an unfenced
valid-JSON response containing no "```" parses identically; (c) whenever
the selected segment fails to parse, the result is the mapping with keys
"error" and "raw" whose "raw" value is the unmodified original input.
The backtick-freedom conditions are necessary: stray fence markers in the
prose or payload make the slicing pick the wrong segment (see the
counterexample). -/
theorem claim_json_extraction :
    (∀ (loads : Chars → Option JVal) (r A B C : Chars) (v : JVal),
       bt ∉ A → bt ∉ B → bt ∉ C →
       pyStrip r = A ++ (fenceJson ++ (B ++ (fence ++ C))) →
       loads (pyStrip B) = some v →
       pyParseJsonResponse loads r = v) ∧
    (∀ (loads : Chars → Option JVal) (r : Chars) (v : JVal),
       containsSub (pyStrip r) fence = false →
       loads (pyStrip r) = some v →
       pyParseJsonResponse loads r = v) ∧
    (∀ (loads : Chars → Option JVal) (r : Chars),
       loads (pyStrip (pyExtractSegment r)) = none →
       (pyParseJsonResponse loads r =
          .jobj [(errK, .jstr errMsgChars), (rawK, .jstr r)] ∧
        dictLookup [(errK, .jstr errMsgChars), (rawK, .jstr r)] rawK =
          some (.jstr r))) := by
  refine ⟨?_, ?_, ?_⟩
  · intro loads r A B C v hA hB hC hdec hload
    unfold pyParseJsonResponse
    rw [extract_fenced_json r A B C hA hB hC hdec, hload]
  · intro loads r v hf hl
    unfold pyParseJsonResponse
    rw [extract_unfenced r hf, pyStrip_idem, hl]
  · intro loads r h
    constructor
    · simp [pyParseJsonResponse, h]
    · simp [dictLookup, errK_ne_rawK]

/-- Claim C2 is false as stated: the input consisting of the five
characters quote-backtick-backtick-backtick-quote is an unfenced valid
JSON document (the JSON string made of three backticks — the model parser
confirms it), yet the function does not return that string: the backticks
inside the JSON trip the fence-splitting branch, the sliced segment fails
to parse, and the error mapping is returned instead. -/
theorem claim_json_extraction_cex :
    miniLoads (pyStrip "\"```\"".toList) = some (JVal.jstr [bt, bt, bt]) ∧
    pyParseJsonResponse miniLoads "\"```\"".toList =
      .jobj [(errK, .jstr errMsgChars), (rawK, .jstr "\"```\"".toList)] :=
  ⟨rfl, rfl⟩

/-- Application of the extraction theorem: a fenced response with prose on
both sides, an unfenced JSON response, and an unparseable response. -/
theorem claim_json_extraction_witness :
    pyParseJsonResponse miniLoads "Here it is: ```json [1, 2] ``` thanks".toList =
      JVal.jarr [JVal.jnum 1, JVal.jnum 2] ∧
    pyParseJsonResponse miniLoads " [3] ".toList = JVal.jarr [JVal.jnum 3] ∧
    (pyParseJsonResponse miniLoads "no json here".toList =
       .jobj [(errK, .jstr errMsgChars), (rawK, .jstr "no json here".toList)] ∧
     dictLookup [(errK, .jstr errMsgChars), (rawK, .jstr "no json here".toList)] rawK =
       some (.jstr "no json here".toList)) :=
  ⟨claim_json_extraction.1 miniLoads "Here it is: ```json [1, 2] ``` thanks".toList
      "Here it is: ".toList " [1, 2] ".toList " thanks".toList
      (JVal.jarr [JVal.jnum 1, JVal.jnum 2])
      (by decide) (by decide) (by decide) (by decide) rfl,
   claim_json_extraction.2.1 miniLoads " [3] ".toList (JVal.jarr [JVal.jnum 3])
      (by decide) rfl,
   claim_json_extraction.2.2 miniLoads "no json here".toList rfl⟩
